import Mathlib

/-
Verification of the tsg transcript-segment-graph core: a shallow embedding of
the node/exon parsing layer (crates/tsg-core/src/graph/node.rs) and the path
layer (crates/tsg/src/graph/path.rs), with theorems about the spec's claims.
Strings are embedded as lists of characters; Rust usize is embedded as Nat
with an explicit bound where overflow or underflow matters; fallible Rust
code returns Except, and code that can panic returns a three-valued result.
-/

deriving instance DecidableEq for Except

namespace TSG

/-- Byte strings of the Rust code are embedded as lists of characters. -/
abbrev BStr := List Char

/-- Coerces a Lean string literal to the character-list embedding. -/
def chars (s : String) : BStr := s.data

/-- Splits a character list at every character satisfying p, keeping empty
pieces, mirroring Rust str::split.  The result is always nonempty. -/
def splitOnP (p : Char → Bool) : BStr → List BStr
  | [] => [[]]
  | c :: cs =>
    if p c then [] :: splitOnP p cs
    else
      match splitOnP p cs with
      | [] => [[c]]
      | t :: ts => (c :: t) :: ts

/-- Rust str::split with a single-character separator. -/
def splitChar (sep : Char) (s : BStr) : List BStr :=
  splitOnP (fun c => c == sep) s

/-- Whitespace characters recognised by the embedding of
Rust str::split_whitespace (the ASCII subset of char::is_whitespace,
which is all the format ever emits). -/
def isWs (c : Char) : Bool :=
  c == ' ' || c == '\t' || c == '\n' || c == '\r'

/-- Rust str::split_whitespace: split at whitespace and drop empty pieces. -/
def splitWs (s : BStr) : List BStr :=
  (splitOnP isWs s).filter (fun t => !t.isEmpty)

/-- Rust slice join: concatenates the pieces with the separator between
consecutive pieces. -/
def joinSep (sep : BStr) : List BStr → BStr
  | [] => []
  | [x] => x
  | x :: xs => x ++ sep ++ joinSep sep xs

/-- Decimal digits of a natural number, least significant first, carrying
explicit fuel so that evaluation is structural. -/
def natToRevAux : Nat → Nat → List Char
  | _, 0 => []
  | n, fuel + 1 =>
    if n < 10 then [Nat.digitChar n]
    else Nat.digitChar (n % 10) :: natToRevAux (n / 10) fuel

/-- Decimal digits of a natural number, least significant first. -/
def natToRev (n : Nat) : List Char := natToRevAux n (n + 1)

/-- Decimal rendering of a natural number, embedding Rust usize Display. -/
def natToStr (n : Nat) : BStr := (natToRev n).reverse

/-- Numeric value of a decimal digit character. -/
def digitVal (c : Char) : Nat := c.toNat - 48

/-- Value of a big-endian decimal digit string. -/
def digitsVal (s : BStr) : Nat := s.foldl (fun a c => a * 10 + digitVal c) 0

/-- One more than the largest value representable in a 64-bit usize. -/
def USIZE : Nat := 2 ^ 64

/-- Embeds Rust usize::from_str: an optional leading plus sign, then a
nonempty run of decimal digits whose value fits in 64 bits. -/
def parseUsize (s : BStr) : Option Nat :=
  let digits : BStr :=
    match s with
    | c :: rest => if c = '+' then rest else c :: rest
    | [] => []
  if digits.isEmpty then none
  else if digits.all Char.isDigit then
    if digitsVal digits < USIZE then some (digitsVal digits) else none
  else none

/-- Embeds collecting an iterator of Results into a Result of a Vec: the
first failure aborts with that error. -/
def collectExcept {α β ε : Type} (f : α → Except ε β) : List α → Except ε (List β)
  | [] => .ok []
  | a :: as =>
    match f a with
    | .error e => .error e
    | .ok b =>
      match collectExcept f as with
      | .error e => .error e
      | .ok bs => .ok (b :: bs)

/-- Embeds mapping a possibly panicking operation over a list: the first
panic propagates. -/
def collectOption {α β : Type} (f : α → Option β) : List α → Option (List β)
  | [] => some []
  | a :: as =>
    match f a with
    | none => none
    | some b =>
      match collectOption f as with
      | none => none
      | some bs => some (b :: bs)

/-- Interval with start and end positions (node.rs, struct Interval). -/
structure Interval where
  start : Nat
  «end» : Nat
deriving DecidableEq, Repr

/-- Embeds debug-mode usize subtraction: underflow panics, so no value is
produced when the subtrahend exceeds the minuend. -/
def usizeSub (a b : Nat) : Option Nat :=
  if b ≤ a then some (a - b) else none

/-- Interval::span, computing end - start in unsigned arithmetic. -/
def Interval.span (i : Interval) : Option Nat := usizeSub i.«end» i.start

/-- Interval FromStr (node.rs): splits on a dash into exactly two usize
coordinates; no ordering requirement between them. -/
def Interval.from_str (s : BStr) : Except BStr Interval :=
  let parts := splitChar '-' s
  if parts.length ≠ 2 then
    .error (chars "Invalid exon coordinates format: " ++ s)
  else
    match parseUsize (parts.getD 0 []) with
    | none => .error (chars "Invalid start coordinate")
    | some a =>
      match parseUsize (parts.getD 1 []) with
      | none => .error (chars "Invalid end coordinate")
      | some b => .ok { start := a, «end» := b }

/-- Interval rendering used by the Exons Display implementation. -/
def Interval.render (i : Interval) : BStr :=
  natToStr i.start ++ chars "-" ++ natToStr i.«end»

/-- Collection of exon intervals (node.rs, struct Exons). -/
structure Exons where
  exons : List Interval
deriving DecidableEq, Repr

/-- Exons FromStr: comma-separated intervals, first failure aborts. -/
def Exons.from_str (s : BStr) : Except BStr Exons :=
  match collectExcept Interval.from_str (splitChar ',' s) with
  | .error e => .error e
  | .ok l => .ok { exons := l }

/-- Exons Display: dash-rendered intervals joined with commas. -/
def Exons.render (e : Exons) : BStr :=
  joinSep (chars ",") (e.exons.map Interval.render)

/-- Exons::introns: for each consecutive exon pair, the gap from one past the
end of the earlier exon to the start of the later exon. -/
def Exons.introns (e : Exons) : List Interval :=
  (List.range (e.exons.length - 1)).map (fun i =>
    { start := (e.exons.getD i { start := 0, «end» := 0 }).«end» + 1
      «end» := (e.exons.getD (i + 1) { start := 0, «end» := 0 }).start })

/-- Exons::span: the sum of the member interval spans. -/
def Exons.span (e : Exons) : Option Nat :=
  (collectOption Interval.span e.exons).map List.sum

/-- Result of running code that can also panic: ok, a returned error, or a
panic (index out of bounds or unwrap of an error). -/
inductive PResult (ε α : Type) where
  | ok (a : α)
  | err (e : ε)
  | panicked
deriving DecidableEq, Repr

/-- DNA strand orientation (node.rs, enum Strand). -/
inductive Strand where
  | Forward
  | Reverse
deriving DecidableEq, Repr

/-- Strand Display: plus or minus. -/
def Strand.render : Strand → BStr
  | .Forward => chars "+"
  | .Reverse => chars "-"

/-- Strand FromStr: plus or minus, anything else is an error. -/
def Strand.from_str (s : BStr) : Except BStr Strand :=
  if s = chars "+" then .ok .Forward
  else if s = chars "-" then .ok .Reverse
  else .error (chars "Invalid strand: " ++ s)

/-- Structural role of a supporting read (node.rs, enum ReadIdentity). -/
inductive ReadIdentity where
  | SO
  | IN
  | SI
deriving DecidableEq, Repr

/-- ReadIdentity rendering; the Display and derived Debug forms agree. -/
def ReadIdentity.render : ReadIdentity → BStr
  | .SO => chars "SO"
  | .IN => chars "IN"
  | .SI => chars "SI"

/-- ReadIdentity FromStr: exactly SO, IN or SI. -/
def ReadIdentity.from_str (s : BStr) : Except BStr ReadIdentity :=
  if s = chars "SO" then .ok .SO
  else if s = chars "IN" then .ok .IN
  else if s = chars "SI" then .ok .SI
  else .error (chars "Invalid read identity: " ++ s)

/-- Supporting-read evidence (node.rs, struct ReadData). -/
structure ReadData where
  id : BStr
  identity : ReadIdentity
deriving DecidableEq, Repr

/-- ReadData Display: id, colon, identity. -/
def ReadData.render (r : ReadData) : BStr :=
  r.id ++ chars ":" ++ ReadIdentity.render r.identity

/-- ReadData FromStr: splits on colons into exactly two fields, the second a
read identity. -/
def ReadData.from_str (s : BStr) : Except BStr ReadData :=
  let fields := splitChar ':' s
  if fields.length ≠ 2 then
    .error (chars "Invalid read line format: " ++ s)
  else
    match ReadIdentity.from_str (fields.getD 1 []) with
    | .error e => .error e
    | .ok idn => .ok { id := fields.getD 0 [], identity := idn }

/-- Typed attribute attached to nodes, edges and paths (tag, type char,
raw value), as used throughout node.rs. -/
structure Attribute where
  tag : BStr
  attribute_type : Char
  value : BStr
deriving DecidableEq, Repr

/-- Node of the transcript segment graph (node.rs, struct NodeData). -/
structure NodeData where
  id : BStr
  reference_id : BStr
  strand : Strand
  exons : Exons
  reads : List ReadData
  sequence : Option BStr
  attributes : List (BStr × Attribute)
deriving DecidableEq, Repr

/-- NodeData Display: tag N, id, reference:strand:exons, comma-joined reads,
and the sequence (empty when absent), tab-separated. -/
def NodeData.render (n : NodeData) : BStr :=
  joinSep (chars "\t")
    [chars "N",
     n.id,
     n.reference_id ++ chars ":" ++ Strand.render n.strand ++ chars ":" ++
       Exons.render n.exons,
     joinSep (chars ",") (n.reads.map ReadData.render),
     n.sequence.getD []]

/-- A read token parsed with unwrap in the source: any parse error panics. -/
def readUnwrapped (s : BStr) : Option ReadData :=
  match ReadData.from_str s with
  | .error _ => none
  | .ok r => some r

/-- NodeData FromStr (node.rs): whitespace-split fields; fewer than four
fields is an error carrying the raw line; the third field is split at colons
and indexed at 0, 1, 2 (out-of-bounds indexing panics); strand and exon parse
failures are errors; every read token is parsed with unwrap (a malformed read
token panics); a fifth nonempty field is the sequence; attributes default to
empty. -/
def NodeData.from_str (s : BStr) : PResult BStr NodeData :=
  let fields := splitWs s
  if fields.length < 4 then
    .err (chars "Invalid node line format: " ++ s)
  else
    let id := fields.getD 1 []
    let rae := splitChar ':' (fields.getD 2 [])
    if rae.length ≤ 1 then .panicked
    else
      let reference_id := rae.getD 0 []
      match Strand.from_str (rae.getD 1 []) with
      | .error e => .err (chars "Failed to parse strand: " ++ e)
      | .ok strand =>
        if rae.length ≤ 2 then .panicked
        else
          match Exons.from_str (rae.getD 2 []) with
          | .error e => .err (chars "Failed to parse exons: " ++ e)
          | .ok exons =>
            match collectOption readUnwrapped (splitChar ',' (fields.getD 3 [])) with
            | none => .panicked
            | some reads =>
              let sequence :=
                if 4 < fields.length ∧ fields.getD 4 [] ≠ [] then
                  some (fields.getD 4 [])
                else none
              .ok { id := id, reference_id := reference_id, strand := strand,
                    exons := exons, reads := reads, sequence := sequence,
                    attributes := [] }

/-- Parse error of the record layer: 1-based line number, raw text, reason. -/
structure ParseError where
  line : Nat
  text : BStr
  reason : BStr
deriving DecidableEq, Repr

/-- Modelled from the spec: the file loader (spec sections 4.1, 4.3 and 7,
not under the provided sources) feeds each raw line together with its 1-based
line number to the record parser and wraps any parse failure into a
ParseError carrying that line number and the raw text. -/
def parse_node_line (lineNumber : Nat) (s : BStr) : PResult ParseError NodeData :=
  match NodeData.from_str s with
  | .ok n => .ok n
  | .err m => .err { line := lineNumber, text := s, reason := m }
  | .panicked => .panicked

/-- A character list free of whitespace. -/
abbrev wsFree (s : BStr) : Prop := ∀ c ∈ s, isWs c = false

/-- A character list free of one given character. -/
abbrev charFree (x : Char) (s : BStr) : Prop := ∀ c ∈ s, c ≠ x

/-- Well-formedness of a node for the render/parse round trip: a nonempty
whitespace-free id, a whitespace- and colon-free reference id, a nonempty
exon list with 64-bit coordinates, a nonempty read list whose read ids are
free of whitespace, colons and commas, a sequence that is absent or nonempty
and whitespace-free, and no attributes (the text form carries none). -/
structure WellFormedNode (n : NodeData) : Prop where
  id_ne : n.id ≠ []
  id_ws : wsFree n.id
  rid_ws : wsFree n.reference_id
  rid_colon : charFree ':' n.reference_id
  exons_ne : n.exons.exons ≠ []
  exons_bound : ∀ i ∈ n.exons.exons, i.start < USIZE ∧ i.«end» < USIZE
  reads_ne : n.reads ≠ []
  read_ws : ∀ r ∈ n.reads, wsFree r.id
  read_colon : ∀ r ∈ n.reads, charFree ':' r.id
  read_comma : ∀ r ∈ n.reads, charFree ',' r.id
  seq_ws : ∀ s, n.sequence = some s → wsFree s
  seq_ne : n.sequence ≠ some []
  attrs_nil : n.attributes = []

/-- A node carrying a nonempty attribute map, used to refute the unrestricted
round-trip claim: its text form does not mention the attribute. -/
def attrNode : NodeData :=
  { id := chars "n1", reference_id := chars "chr1", strand := .Forward,
    exons := { exons := [{ start := 100, «end» := 200 }] },
    reads := [{ id := chars "r1", identity := .SO }], sequence := none,
    attributes := [(chars "ptc",
      { tag := chars "ptc", attribute_type := 'Z', value := chars "1" })] }

/-- A concrete well-formed node exercising the round trip. -/
def wNode : NodeData :=
  { id := chars "n1", reference_id := chars "chr1", strand := .Forward,
    exons := { exons := [{ start := 100, «end» := 200 }, { start := 300, «end» := 400 }] },
    reads := [{ id := chars "r1", identity := .SO }, { id := chars "r2", identity := .IN }],
    sequence := some (chars "ACGT"), attributes := [] }

/-- Modelled from the spec: a Graph Section (spec section 3) holds the nodes
of one sub-graph with stable index-based lookup; the GraphSection type and
its node_by_idx accessor live in a graph module that is not among the
provided sources, so only the index-to-node lookup used by TSGPath is
modelled. -/
structure GraphSection where
  nodes : List NodeData
deriving DecidableEq, Repr

/-- GraphSection node lookup by stable index. -/
def GraphSection.node_by_idx (g : GraphSection) (i : Nat) : Option NodeData :=
  g.nodes[i]?

/-- Fixed-width hexadecimal rendering of a hash value: exactly len digits. -/
def hexFixed (h len : Nat) : BStr :=
  ((List.range len).map (fun i => Nat.digitChar (h / 16 ^ i % 16))).reverse

/-- Modelled from the spec: to_hash_identifier (crate utils, not among the
provided sources) deterministically maps a string through a fixed
well-distributed 64-bit hash and encodes it as a fixed-width textual
identifier of the requested length (spec section 4.5). -/
def to_hash_identifier (s : BStr) (len : Nat) : BStr :=
  hexFixed (s.foldl (fun a c => (a * 31 + c.toNat) % USIZE) 5381) len

/-- Path through the graph (crates/tsg path.rs, struct TSGPath): node and
edge index sequences, the borrowed owning section stored inside the value as
an Option, and accumulated attributes. -/
structure TSGPath where
  nodes : List Nat
  edges : List Nat
  graph : Option GraphSection
  attributes : List Attribute
deriving DecidableEq, Repr

/-- TSGPath::validate: ok exactly when the node count is the edge count plus
one, an error otherwise. -/
def TSGPath.validate (p : TSGPath) : Except BStr Unit :=
  if p.nodes.length ≠ p.edges.length + 1 then
    .error (chars "Invalid path: node count must be edge count + 1")
  else .ok ()

/-- TSGPath::id (path.rs): error on an empty path; otherwise resolve every
node index through the graph reference stored in the path (the unwrap of an
absent reference or of a failed lookup panics), join the node ids in order
with a dash, and hash the result to a 16-character identifier. -/
def TSGPath.id (p : TSGPath) : PResult BStr BStr :=
  if p.nodes.isEmpty then .err (chars "No nodes in path")
  else
    match p.graph with
    | none => .panicked
    | some g =>
      match collectOption g.node_by_idx p.nodes with
      | none => .panicked
      | some nds =>
        .ok (to_hash_identifier (joinSep (chars "-") (nds.map (fun nd => nd.id))) 16)

/-- A minimal node for the concrete path examples. -/
def pNode : NodeData :=
  { id := chars "n1", reference_id := chars "chr1", strand := .Forward,
    exons := { exons := [{ start := 100, «end» := 200 }] },
    reads := [{ id := chars "r1", identity := .SO }], sequence := none,
    attributes := [] }

/-- A one-node graph section for the concrete path examples. -/
def pSection : GraphSection := { nodes := [pNode] }

/-- A one-node path holding a reference to its owning section. -/
def pWithGraph : TSGPath :=
  { nodes := [0], edges := [], graph := some pSection, attributes := [] }

/-- A path with the same index data but no stored section. -/
def pNoGraph : TSGPath :=
  { nodes := [0], edges := [], graph := none, attributes := [] }

/-- The empty path: no nodes, no edges. -/
def pEmpty : TSGPath :=
  { nodes := [], edges := [], graph := none, attributes := [] }

/-- Interval spans collect into a sum exactly when every interval is
ordered, in which case each span is its end minus its start. -/
theorem collect_span_eq (l : List Interval) (h : ∀ i ∈ l, i.start ≤ i.«end») :
    collectOption Interval.span l = some (l.map (fun i => i.«end» - i.start)) := by
  induction l with
  | nil => rfl
  | cons a as ih =>
    have ha : a.start ≤ a.«end» := h a (by simp)
    have ih' := ih (fun i hi => h i (by simp [hi]))
    simp [collectOption, Interval.span, usizeSub, ha, ih']

/-- C4: introns returns exactly one interval per consecutive exon pair, the
i-th intron running from one past the end of exon i to the start of exon
i plus one; on the exons parsed from 100-200,300-400,500-600 it yields
exactly (201,300),(401,500). -/
theorem introns_spec :
    (∀ e : Exons, e.introns.length = e.exons.length - 1) ∧
    (∀ (e : Exons) (i : Nat), i < e.exons.length - 1 →
      e.introns.getD i { start := 0, «end» := 0 } =
        { start := (e.exons.getD i { start := 0, «end» := 0 }).«end» + 1
          «end» := (e.exons.getD (i + 1) { start := 0, «end» := 0 }).start }) ∧
    (Exons.from_str (chars "100-200,300-400,500-600") =
        .ok (Exons.mk [⟨100, 200⟩, ⟨300, 400⟩, ⟨500, 600⟩]) ∧
      (Exons.mk [⟨100, 200⟩, ⟨300, 400⟩, ⟨500, 600⟩]).introns =
        [⟨201, 300⟩, ⟨401, 500⟩]) := by
  refine ⟨fun e => by simp [Exons.introns], fun e i h => ?_, by decide, by decide⟩
  simp [Exons.introns, List.getD, List.getElem?_map, List.getElem?_range, h]

/-- C4 witness: the general intron formula applied to a concrete exon set. -/
theorem introns_spec_witness :
    (0 < (Exons.mk [⟨100, 200⟩, ⟨300, 400⟩]).exons.length - 1) ∧
    (Exons.mk [⟨100, 200⟩, ⟨300, 400⟩]).introns.getD 0 { start := 0, «end» := 0 } =
      { start := 201, «end» := 300 } :=
  ⟨by decide, introns_spec.2.1 (Exons.mk [⟨100, 200⟩, ⟨300, 400⟩]) 0 (by decide)⟩

/-- C5 counterexample: on the parser-accepted interval 200-100, span does not
return a value at all (debug-mode underflow), so Interval::span does not
unconditionally return the length end - start. -/
theorem span_unconditional_cex : (Interval.mk 200 100).span = none := by rfl

/-- C5 (amended): for an ordered interval, span returns end - start; when all
member intervals are ordered, Exons::span returns the sum of those lengths;
over the exon set parsed from 100-200,300-400,500-600 the span is 300. -/
theorem span_spec :
    (∀ i : Interval, i.start ≤ i.«end» → i.span = some (i.«end» - i.start)) ∧
    (∀ e : Exons, (∀ i ∈ e.exons, i.start ≤ i.«end») →
      e.span = some ((e.exons.map (fun i => i.«end» - i.start)).sum)) ∧
    (Exons.mk [⟨100, 200⟩, ⟨300, 400⟩, ⟨500, 600⟩]).span = some 300 ∧
    Exons.from_str (chars "100-200,300-400,500-600") =
      .ok (Exons.mk [⟨100, 200⟩, ⟨300, 400⟩, ⟨500, 600⟩]) := by
  refine ⟨fun i h => by simp [Interval.span, usizeSub, h], fun e h => ?_,
    by decide, by decide⟩
  simp [Exons.span, collect_span_eq e.exons h]

/-- C5 witness: the general span formulas applied at a concrete input. -/
theorem span_spec_witness :
    ((100 : Nat) ≤ 200) ∧ (Interval.mk 100 200).span = some 100 :=
  ⟨by decide, span_spec.1 (Interval.mk 100 200) (by decide)⟩

/-- C10: the interval parser accepts 200-100 even though its start exceeds its
end, span on that interval returns no length (the underflow branch), and in
general span yields a value exactly when start is at most end. -/
theorem span_underflow_reachable :
    Interval.from_str (chars "200-100") = .ok (Interval.mk 200 100) ∧
    (Interval.mk 200 100).span = none ∧
    (∀ i : Interval, (i.span).isSome ↔ i.start ≤ i.«end») := by
  refine ⟨by decide, rfl, fun i => ?_⟩
  by_cases h : i.start ≤ i.«end» <;> simp [Interval.span, usizeSub, h]

theorem splitOnP_free (p : Char → Bool) (s : BStr) (h : ∀ c ∈ s, p c = false) :
    splitOnP p s = [s] := by
  induction s with
  | nil => rfl
  | cons c cs ih =>
    have hc : p c = false := h c (by simp)
    have ih' := ih (fun x hx => h x (by simp [hx]))
    simp [splitOnP, hc, ih']

theorem splitOnP_sep (p : Char → Bool) (c : Char) (hc : p c = true) (s : BStr) :
    splitOnP p (c :: s) = [] :: splitOnP p s := by
  simp [splitOnP, hc]

theorem splitOnP_append (p : Char → Bool) (xs ys : BStr)
    (hx : ∀ c ∈ xs, p c = false) {t : BStr} {ts : List BStr}
    (hys : splitOnP p ys = t :: ts) :
    splitOnP p (xs ++ ys) = (xs ++ t) :: ts := by
  induction xs with
  | nil => simpa using hys
  | cons c cs ih =>
    have hc : p c = false := hx c (by simp)
    have ih' := ih (fun x hx2 => hx x (by simp [hx2]))
    simp [splitOnP, hc, ih']

theorem splitOnP_joinSep (p : Char → Bool) (sep : Char) (hsep : p sep = true) :
    ∀ ps : List BStr, ps ≠ [] → (∀ t ∈ ps, ∀ c ∈ t, p c = false) →
      splitOnP p (joinSep [sep] ps) = ps := by
  intro ps
  induction ps with
  | nil => intro h; exact absurd rfl h
  | cons x xs ih =>
    intro _ hfree
    cases xs with
    | nil =>
      have : joinSep [sep] [x] = x := rfl
      rw [this]
      exact splitOnP_free p x (hfree x (by simp))
    | cons y ys =>
      have hj : joinSep [sep] (x :: y :: ys) = x ++ ([sep] ++ joinSep [sep] (y :: ys)) := by
        simp [joinSep]
      rw [hj]
      have htail : splitOnP p ([sep] ++ joinSep [sep] (y :: ys)) =
          [] :: splitOnP p (joinSep [sep] (y :: ys)) :=
        splitOnP_sep p sep hsep _
      have hrest : splitOnP p (joinSep [sep] (y :: ys)) = y :: ys :=
        ih (by simp) (fun t ht => hfree t (List.mem_cons_of_mem x ht))
      rw [splitOnP_append p x _ (hfree x (by simp)) (by rw [htail, hrest])]
      simp

theorem natToRevAux_digits : ∀ (fuel n : Nat), ∀ c ∈ natToRevAux n fuel, c.isDigit = true := by
  intro fuel
  induction fuel with
  | zero => intro n c hc; cases hc
  | succ f ih =>
    intro n c hc
    unfold natToRevAux at hc
    by_cases h : n < 10
    · simp [h] at hc
      subst hc
      interval_cases n <;> decide
    · simp [h] at hc
      rcases hc with rfl | hmem
      · have hm : n % 10 < 10 := Nat.mod_lt n (by omega)
        interval_cases hh : n % 10 <;> decide
      · exact ih (n / 10) c hmem

theorem natToRev_digits (n : Nat) : ∀ c ∈ natToRev n, c.isDigit = true :=
  natToRevAux_digits (n + 1) n

theorem natToRev_ne_nil (n : Nat) : natToRev n ≠ [] := by
  unfold natToRev natToRevAux
  split <;> simp

theorem foldr_natToRevAux : ∀ (fuel n : Nat), n < fuel →
    (natToRevAux n fuel).foldr (fun c a => a * 10 + digitVal c) 0 = n := by
  intro fuel
  induction fuel with
  | zero => intro n h; omega
  | succ f ih =>
    intro n h
    unfold natToRevAux
    by_cases h10 : n < 10
    · simp only [h10, if_true, List.foldr_cons, List.foldr_nil]
      interval_cases n <;> decide
    · have hdiv : n / 10 < f := by
        have h1 : n / 10 < n := Nat.div_lt_self (by omega) (by omega)
        omega
      simp only [h10, if_false, List.foldr_cons, ih _ hdiv]
      have hm : n % 10 < 10 := Nat.mod_lt n (by omega)
      have hdv : digitVal (Nat.digitChar (n % 10)) = n % 10 := by
        interval_cases hh : n % 10 <;> decide
      rw [hdv]
      omega

theorem foldr_natToRev (n : Nat) :
    (natToRev n).foldr (fun c a => a * 10 + digitVal c) 0 = n :=
  foldr_natToRevAux (n + 1) n (by omega)

theorem natToStr_digits (n : Nat) : ∀ c ∈ natToStr n, c.isDigit = true := by
  intro c hc
  exact natToRev_digits n c (List.mem_reverse.mp hc)

theorem natToStr_ne_nil (n : Nat) : natToStr n ≠ [] := by
  unfold natToStr
  simpa using natToRev_ne_nil n

theorem digitsVal_natToStr (n : Nat) : digitsVal (natToStr n) = n := by
  unfold digitsVal natToStr
  rw [List.foldl_reverse]
  exact foldr_natToRev n

theorem parseUsize_natToStr (n : Nat) (h : n < USIZE) :
    parseUsize (natToStr n) = some n := by
  have hd := natToStr_digits n
  have hne := natToStr_ne_nil n
  unfold parseUsize
  cases hs : natToStr n with
  | nil => exact absurd hs hne
  | cons c cs =>
    have hc : c.isDigit = true := hd c (by simp [hs])
    have hplus : ¬ c = '+' := by
      intro e
      subst e
      exact absurd hc (by decide)
    have hall : (c :: cs).all Char.isDigit = true := by
      rw [List.all_eq_true]
      intro x hx
      exact hd x (by simp [hs, hx])
    have hval : digitsVal (c :: cs) = n := by
      rw [← hs, digitsVal_natToStr]
    simp [hplus, hall, hval, h]

theorem digit_not_ws {c : Char} (h : c.isDigit = true) : isWs c = false := by
  by_contra hw
  have hw' : isWs c = true := by revert hw; cases isWs c <;> simp
  simp only [isWs, Bool.or_eq_true, beq_iff_eq] at hw'
  rcases hw' with ((rfl | rfl) | rfl) | rfl <;> exact absurd h (by decide)

theorem digit_ne {c x : Char} (h : c.isDigit = true) (hx : x.isDigit = false) : c ≠ x := by
  intro e
  subst e
  rw [h] at hx
  cases hx

theorem interval_render_chars (i : Interval) :
    ∀ c ∈ i.render, c.isDigit = true ∨ c = '-' := by
  intro c hc
  unfold Interval.render at hc
  rcases List.mem_append.mp hc with hc2 | hc2
  · rcases List.mem_append.mp hc2 with hc3 | hc3
    · exact Or.inl (natToStr_digits _ c hc3)
    · simp [chars] at hc3; exact Or.inr hc3
  · exact Or.inl (natToStr_digits _ c hc2)

theorem joinSep_chars {q : Char → Prop} (sep : BStr) (ps : List BStr)
    (hsep : ∀ c ∈ sep, q c) (hps : ∀ t ∈ ps, ∀ c ∈ t, q c) :
    ∀ c ∈ joinSep sep ps, q c := by
  induction ps with
  | nil => intro c hc; cases hc
  | cons x xs ih =>
    cases xs with
    | nil => intro c hc; exact hps x (by simp) c hc
    | cons y ys =>
      intro c hc
      have hj : joinSep sep (x :: y :: ys) = x ++ sep ++ joinSep sep (y :: ys) := by
        simp [joinSep]
      rw [hj] at hc
      rcases List.mem_append.mp hc with hc2 | hc2
      · rcases List.mem_append.mp hc2 with hc3 | hc3
        · exact hps x (by simp) c hc3
        · exact hsep c hc3
      · exact ih (fun t ht c2 hc4 => hps t (List.mem_cons_of_mem x ht) c2 hc4) c hc2

theorem exons_render_chars (e : Exons) :
    ∀ c ∈ e.render, c.isDigit = true ∨ c = '-' ∨ c = ',' := by
  unfold Exons.render
  apply joinSep_chars
  · intro c hc
    simp [chars] at hc
    tauto
  · intro t ht c hc
    rw [List.mem_map] at ht
    obtain ⟨i, _, rfl⟩ := ht
    rcases interval_render_chars i c hc with h | h <;> tauto

theorem interval_roundtrip (i : Interval) (h1 : i.start < USIZE) (h2 : i.«end» < USIZE) :
    Interval.from_str (Interval.render i) = .ok i := by
  have hs : Interval.render i = natToStr i.start ++ ('-' :: natToStr i.«end») := by
    unfold Interval.render
    simp [chars]
  have hfree1 : ∀ c ∈ natToStr i.start, (c == '-') = false := by
    intro c hc
    simp
    exact digit_ne (natToStr_digits _ c hc) (by decide)
  have hfree2 : ∀ c ∈ natToStr i.«end», (c == '-') = false := by
    intro c hc
    simp
    exact digit_ne (natToStr_digits _ c hc) (by decide)
  have hsplit : splitChar '-' (Interval.render i) = [natToStr i.start, natToStr i.«end»] := by
    rw [hs]
    unfold splitChar
    rw [splitOnP_append _ _ _ hfree1 (splitOnP_sep _ '-' (by decide) _)]
    rw [splitOnP_free _ _ hfree2]
    simp
  unfold Interval.from_str
  rw [hsplit]
  simp [parseUsize_natToStr _ h1, parseUsize_natToStr _ h2]

theorem strand_roundtrip (st : Strand) : Strand.from_str (Strand.render st) = .ok st := by
  cases st <;> rfl

theorem identity_roundtrip (idn : ReadIdentity) :
    ReadIdentity.from_str (ReadIdentity.render idn) = .ok idn := by
  cases idn <;> rfl

theorem identity_render_chars (idn : ReadIdentity) :
    ∀ c ∈ idn.render, c = 'S' ∨ c = 'O' ∨ c = 'I' ∨ c = 'N' := by
  cases idn <;> intro c hc <;> simp [ReadIdentity.render, chars] at hc <;> tauto

theorem collect_interval_renders (l : List Interval)
    (hb : ∀ i ∈ l, i.start < USIZE ∧ i.«end» < USIZE) :
    collectExcept Interval.from_str (l.map Interval.render) = .ok l := by
  induction l with
  | nil => rfl
  | cons i is ih =>
    obtain ⟨h1, h2⟩ := hb i (by simp)
    have ih' := ih (fun j hj => hb j (List.mem_cons_of_mem i hj))
    simp [collectExcept, interval_roundtrip i h1 h2, ih']

theorem exons_roundtrip (e : Exons) (hne : e.exons ≠ [])
    (hb : ∀ i ∈ e.exons, i.start < USIZE ∧ i.«end» < USIZE) :
    Exons.from_str (Exons.render e) = .ok e := by
  have hsplit : splitChar ',' (Exons.render e) = e.exons.map Interval.render := by
    unfold Exons.render splitChar
    have hch : chars "," = [','] := rfl
    rw [hch]
    apply splitOnP_joinSep _ ',' (by decide)
    · simpa using hne
    · intro t ht c hc
      rw [List.mem_map] at ht
      obtain ⟨i, _, rfl⟩ := ht
      simp only [beq_eq_false_iff_ne, ne_eq]
      rcases interval_render_chars i c hc with h | h
      · exact digit_ne h (by decide)
      · subst h; decide
  unfold Exons.from_str
  rw [hsplit, collect_interval_renders e.exons hb]

theorem read_render_mem (r : ReadData) :
    ∀ c ∈ r.render, c ∈ r.id ∨ c = ':' ∨ c ∈ r.identity.render := by
  intro c hc
  unfold ReadData.render at hc
  rcases List.mem_append.mp hc with hc2 | hc2
  · rcases List.mem_append.mp hc2 with hc3 | hc3
    · exact Or.inl hc3
    · simp [chars] at hc3; exact Or.inr (Or.inl hc3)
  · exact Or.inr (Or.inr hc2)

theorem read_roundtrip (r : ReadData) (hfree : ∀ c ∈ r.id, c ≠ ':') :
    readUnwrapped (ReadData.render r) = some r := by
  have hren : ReadData.render r = r.id ++ (':' :: r.identity.render) := by
    unfold ReadData.render
    simp [chars]
  have hfree1 : ∀ c ∈ r.id, (c == ':') = false := by
    intro c hc
    simpa using hfree c hc
  have hfree2 : ∀ c ∈ r.identity.render, (c == ':') = false := by
    intro c hc
    simp only [beq_eq_false_iff_ne, ne_eq]
    rcases identity_render_chars r.identity c hc with rfl | rfl | rfl | rfl <;> decide
  have hsplit : splitChar ':' (ReadData.render r) = [r.id, r.identity.render] := by
    rw [hren]
    unfold splitChar
    rw [splitOnP_append _ _ _ hfree1 (splitOnP_sep _ ':' (by decide) _)]
    rw [splitOnP_free _ _ hfree2]
    simp
  unfold readUnwrapped ReadData.from_str
  rw [hsplit]
  simp [identity_roundtrip r.identity]

theorem collect_read_renders (l : List ReadData)
    (hfree : ∀ r ∈ l, ∀ c ∈ r.id, c ≠ ':') :
    collectOption readUnwrapped (l.map ReadData.render) = some l := by
  induction l with
  | nil => rfl
  | cons r rs ih =>
    have h1 := read_roundtrip r (hfree r (by simp))
    have ih' := ih (fun x hx => hfree x (List.mem_cons_of_mem r hx))
    simp [collectOption, h1, ih']

theorem reads_roundtrip (l : List ReadData) (hl : l ≠ [])
    (hcolon : ∀ r ∈ l, ∀ c ∈ r.id, c ≠ ':')
    (hcomma : ∀ r ∈ l, ∀ c ∈ r.id, c ≠ ',') :
    collectOption readUnwrapped
      (splitChar ',' (joinSep (chars ",") (l.map ReadData.render))) = some l := by
  have hsplit : splitChar ',' (joinSep (chars ",") (l.map ReadData.render)) =
      l.map ReadData.render := by
    unfold splitChar
    have hch : chars "," = [','] := rfl
    rw [hch]
    apply splitOnP_joinSep _ ',' (by decide)
    · simpa using hl
    · intro t ht c hc
      rw [List.mem_map] at ht
      obtain ⟨r, hr, rfl⟩ := ht
      simp only [beq_eq_false_iff_ne, ne_eq]
      rcases read_render_mem r c hc with h | h | h
      · exact hcomma r hr c h
      · subst h; decide
      · rcases identity_render_chars r.identity c h with rfl | rfl | rfl | rfl <;> decide
  rw [hsplit]
  exact collect_read_renders l hcolon

theorem strand_render_chars (st : Strand) :
    ∀ c ∈ st.render, c = '+' ∨ c = '-' := by
  cases st <;> intro c hc <;> simp [Strand.render, chars] at hc <;> tauto

theorem splitWs_joinSep (ps : List BStr) (hne : ps ≠ [])
    (h : ∀ t ∈ ps, ∀ c ∈ t, isWs c = false) :
    splitWs (joinSep (chars "\t") ps) = ps.filter (fun t => !t.isEmpty) := by
  unfold splitWs
  have hch : chars "\t" = ['\t'] := rfl
  rw [hch, splitOnP_joinSep isWs '\t' (by decide) ps hne h]

theorem ne_nil_isEmpty {s : BStr} (h : s ≠ []) : (!s.isEmpty) = true := by
  cases s with
  | nil => exact absurd rfl h
  | cons c cs => rfl

theorem read_render_ne_nil (r : ReadData) : ReadData.render r ≠ [] := by
  intro heq
  have := congrArg List.length heq
  simp [ReadData.render, chars] at this

theorem join_reads_ne_nil (l : List ReadData) (hl : l ≠ []) :
    joinSep (chars ",") (l.map ReadData.render) ≠ [] := by
  cases l with
  | nil => exact absurd rfl hl
  | cons r rs =>
    cases rs with
    | nil => simpa [joinSep] using read_render_ne_nil r
    | cons r2 rs2 =>
      intro heq
      have := congrArg List.length heq
      simp [joinSep, chars] at this

theorem field2_split (rid : BStr) (st : Strand) (ex : Exons)
    (hridcol : charFree ':' rid) :
    splitChar ':' (rid ++ chars ":" ++ Strand.render st ++ chars ":" ++ Exons.render ex) =
      [rid, Strand.render st, Exons.render ex] := by
  have hridcol' : ∀ c ∈ rid, (c == ':') = false := by
    intro c hc; simpa using hridcol c hc
  have hstcol : ∀ c ∈ Strand.render st, (c == ':') = false := by
    intro c hc
    simp only [beq_eq_false_iff_ne, ne_eq]
    rcases strand_render_chars st c hc with rfl | rfl <;> decide
  have hexcol : ∀ c ∈ Exons.render ex, (c == ':') = false := by
    intro c hc
    simp only [beq_eq_false_iff_ne, ne_eq]
    rcases exons_render_chars ex c hc with hd | rfl | rfl
    · exact digit_ne hd (by decide)
    · decide
    · decide
  have hshape : rid ++ chars ":" ++ Strand.render st ++ chars ":" ++ Exons.render ex =
      rid ++ (':' :: (Strand.render st ++ (':' :: Exons.render ex))) := by
    simp [chars]
  rw [hshape]
  unfold splitChar
  have e1 : splitOnP (fun c => c == ':') (Exons.render ex) = [Exons.render ex] :=
    splitOnP_free _ _ hexcol
  have e2 : splitOnP (fun c => c == ':')
      (Strand.render st ++ (':' :: Exons.render ex)) =
      (Strand.render st ++ []) :: [Exons.render ex] :=
    splitOnP_append _ _ _ hstcol (by rw [splitOnP_sep _ ':' (by decide), e1])
  have e3 : splitOnP (fun c => c == ':')
      (rid ++ (':' :: (Strand.render st ++ (':' :: Exons.render ex)))) =
      (rid ++ []) :: (Strand.render st ++ []) :: [Exons.render ex] :=
    splitOnP_append _ _ _ hridcol' (by rw [splitOnP_sep _ ':' (by decide), e2])
  rw [e3]
  simp

theorem field2_ws (rid : BStr) (st : Strand) (ex : Exons) (hridws : wsFree rid) :
    ∀ c ∈ rid ++ chars ":" ++ Strand.render st ++ chars ":" ++ Exons.render ex,
      isWs c = false := by
  intro c hc
  simp only [List.append_assoc, List.mem_append] at hc
  rcases hc with hc | hc | hc | hc | hc
  · exact hridws c hc
  · simp [chars] at hc; subst hc; decide
  · rcases strand_render_chars st c hc with rfl | rfl <;> decide
  · simp [chars] at hc; subst hc; decide
  · rcases exons_render_chars ex c hc with hd | rfl | rfl
    · exact digit_not_ws hd
    · decide
    · decide

theorem field3_ws (reads : List ReadData) (hrws : ∀ r ∈ reads, wsFree r.id) :
    ∀ c ∈ joinSep (chars ",") (reads.map ReadData.render), isWs c = false := by
  apply joinSep_chars
  · intro c hc; simp [chars] at hc; subst hc; decide
  · intro t ht c hc
    rw [List.mem_map] at ht
    obtain ⟨r, hr, rfl⟩ := ht
    rcases read_render_mem r c hc with hm | rfl | hm
    · exact hrws r hr c hm
    · decide
    · rcases identity_render_chars r.identity c hm with rfl | rfl | rfl | rfl <;> decide

theorem node_roundtrip (n : NodeData) (h : WellFormedNode n) :
    NodeData.from_str (NodeData.render n) = .ok n := by
  obtain ⟨hidne, hidws, hridws, hridcol, hexne, hexb, hrne, hrws, hrcol, hrcom,
    hsws, hsne, hattr⟩ := h
  obtain ⟨nid, nrid, nst, nex, nreads, nseq, nattr⟩ := n
  simp only at hidne hidws hridws hridcol hexne hexb hrne hrws hrcol hrcom hsws hsne hattr
  subst hattr
  cases nseq with
  | none =>
    have hfields : splitWs (NodeData.render ⟨nid, nrid, nst, nex, nreads, none, []⟩) =
        [chars "N", nid,
         nrid ++ chars ":" ++ Strand.render nst ++ chars ":" ++ Exons.render nex,
         joinSep (chars ",") (nreads.map ReadData.render)] := by
      unfold NodeData.render
      simp only [Option.getD_none]
      rw [splitWs_joinSep _ (by simp) ?hfree]
      case hfree =>
        intro t ht c hc
        simp only [List.mem_cons, List.not_mem_nil, or_false] at ht
        rcases ht with rfl | rfl | rfl | rfl | rfl
        · simp [chars] at hc; subst hc; decide
        · exact hidws c hc
        · exact field2_ws nrid nst nex hridws c hc
        · exact field3_ws nreads hrws c hc
        · cases hc
      have hN : (!(chars "N").isEmpty) = true := rfl
      have hid' : (!nid.isEmpty) = true := ne_nil_isEmpty hidne
      have hf2ne : (!(nrid ++ chars ":" ++ Strand.render nst ++
          chars ":" ++ Exons.render nex).isEmpty) = true := by
        apply ne_nil_isEmpty
        intro heq
        have := congrArg List.length heq
        simp [chars] at this
      have hf3ne : (!(joinSep (chars ",") (nreads.map ReadData.render)).isEmpty) = true :=
        ne_nil_isEmpty (join_reads_ne_nil nreads hrne)
      simp only [List.append_assoc] at hf2ne
      simp [List.filter, hN, hid', hf2ne, hf3ne]
    unfold NodeData.from_str
    rw [hfields]
    simp only [List.getD_cons_zero, List.getD_cons_succ, List.length_cons, List.length_nil,
      field2_split nrid nst nex hridcol, strand_roundtrip,
      exons_roundtrip nex hexne hexb, reads_roundtrip nreads hrne hrcol hrcom]
    norm_num
  | some s =>
    have hsne' : s ≠ [] := fun e => hsne (by rw [e])
    have hsws' : wsFree s := hsws s rfl
    have hfields : splitWs (NodeData.render ⟨nid, nrid, nst, nex, nreads, some s, []⟩) =
        [chars "N", nid,
         nrid ++ chars ":" ++ Strand.render nst ++ chars ":" ++ Exons.render nex,
         joinSep (chars ",") (nreads.map ReadData.render), s] := by
      unfold NodeData.render
      simp only [Option.getD_some]
      rw [splitWs_joinSep _ (by simp) ?hfree]
      case hfree =>
        intro t ht c hc
        simp only [List.mem_cons, List.not_mem_nil, or_false] at ht
        rcases ht with rfl | rfl | rfl | rfl | rfl
        · simp [chars] at hc; subst hc; decide
        · exact hidws c hc
        · exact field2_ws nrid nst nex hridws c hc
        · exact field3_ws nreads hrws c hc
        · exact hsws' c hc
      have hN : (!(chars "N").isEmpty) = true := rfl
      have hid' : (!nid.isEmpty) = true := ne_nil_isEmpty hidne
      have hf2ne : (!(nrid ++ chars ":" ++ Strand.render nst ++
          chars ":" ++ Exons.render nex).isEmpty) = true := by
        apply ne_nil_isEmpty
        intro heq
        have := congrArg List.length heq
        simp [chars] at this
      have hf3ne : (!(joinSep (chars ",") (nreads.map ReadData.render)).isEmpty) = true :=
        ne_nil_isEmpty (join_reads_ne_nil nreads hrne)
      have hs4 : (!s.isEmpty) = true := ne_nil_isEmpty hsne'
      simp only [List.append_assoc] at hf2ne
      simp [List.filter, hN, hid', hf2ne, hf3ne, hs4]
    unfold NodeData.from_str
    rw [hfields]
    simp only [List.getD_cons_zero, List.getD_cons_succ, List.length_cons, List.length_nil,
      field2_split nrid nst nex hridcol, strand_roundtrip,
      exons_roundtrip nex hexne hexb, reads_roundtrip nreads hrne hrcol hrcom]
    simp [hsne']

/-- C1: code-bug evidence. NodeData parsing panics instead of returning a
ParseError on a third field with fewer than three colon-separated parts and
on a malformed reads field (a token without a colon, or with an identity
outside SO, IN, SI), contradicting the spec sentence that every malformed
line yields a ParseError and no partial record. -/
theorem node_from_str_panics :
    NodeData.from_str (chars "N n1 chr1 r1:SO") = .panicked ∧
    NodeData.from_str (chars "N n1 chr1:+ r1:SO") = .panicked ∧
    NodeData.from_str (chars "N n1 chr1:+:100-200 r1") = .panicked ∧
    NodeData.from_str (chars "N n1 chr1:+:100-200 r1:XX") = .panicked :=
  ⟨by decide, by decide, by decide, by decide⟩

/-- C2 counterexample: a node with a nonempty attribute map does not survive
the render/parse round trip, because Display never writes attributes and
parsing always returns an empty attribute map. -/
theorem node_roundtrip_cex :
    NodeData.from_str (NodeData.render attrNode) ≠ .ok attrNode := by decide

/-- C2 (amended): for every well-formed node whose attribute map is empty,
rendering to the text line and re-parsing yields an equal node, with id,
reference id, strand, exons, reads and sequence all preserved. -/
theorem node_roundtrip_thm (n : NodeData) (h : WellFormedNode n) :
    NodeData.from_str (NodeData.render n) = .ok n :=
  node_roundtrip n h

/-- C2 witness: the round trip at a concrete well-formed node. -/
theorem node_roundtrip_witness :
    NodeData.from_str (NodeData.render wNode) = .ok wNode :=
  node_roundtrip_thm wNode
    ⟨by decide, by decide, by decide, by decide, by decide, by decide, by decide,
     by decide, by decide, by decide, fun s hs => by cases hs; decide, by decide, rfl⟩

/-- C6: a node line with fewer than four whitespace-delimited fields parses
to a ParseError carrying the raw line text and the supplied 1-based line
number (the reason string also embeds the raw text). -/
theorem short_node_line_error (lineNumber : Nat) (s : BStr)
    (h : (splitWs s).length < 4) :
    parse_node_line lineNumber s =
      .err { line := lineNumber, text := s,
             reason := chars "Invalid node line format: " ++ s } := by
  unfold parse_node_line NodeData.from_str
  simp [h]

/-- C6 witness: the short-line error at a concrete three-field line. -/
theorem short_node_line_error_witness :
    ((splitWs (chars "N n1 chr1:+:100-200")).length < 4) ∧
    parse_node_line 1 (chars "N n1 chr1:+:100-200") =
      .err { line := 1, text := chars "N n1 chr1:+:100-200",
             reason := chars "Invalid node line format: " ++ chars "N n1 chr1:+:100-200" } :=
  ⟨by decide, short_node_line_error 1 (chars "N n1 chr1:+:100-200") (by decide)⟩


/-- Index lookups all succeed when every index is in bounds. -/
theorem collect_lookup_some (g : GraphSection) (l : List Nat)
    (h : ∀ i ∈ l, i < g.nodes.length) :
    ∃ nds, collectOption g.node_by_idx l = some nds := by
  induction l with
  | nil => exact ⟨[], rfl⟩
  | cons i is ih =>
    obtain ⟨nds, hnds⟩ := ih (fun j hj => h j (List.mem_cons_of_mem i hj))
    have hi : i < g.nodes.length := h i (by simp)
    have hnd : g.node_by_idx i = some (g.nodes.get ⟨i, hi⟩) := by
      unfold GraphSection.node_by_idx
      simp [List.getElem?_eq_getElem hi]
    exact ⟨g.nodes.get ⟨i, hi⟩ :: nds, by simp [collectOption, hnd, hnds]⟩

/-- A nonempty list is not isEmpty. -/
theorem isEmpty_false_of_ne_nil {α : Type} {l : List α} (h : l ≠ []) :
    l.isEmpty = false := by
  cases hl : l with
  | nil => exact absurd hl h
  | cons a as => rfl

/-- The fixed-width hex encoding has exactly the requested length. -/
theorem hexFixed_length (h len : Nat) : (hexFixed h len).length = len := by
  simp [hexFixed]

/-- C3 counterexample: validate rejects the empty path (zero nodes and zero
edges), although the claim counts the empty path as a valid state. -/
theorem validate_empty_cex : TSGPath.validate pEmpty ≠ .ok () := by decide

/-- C3 (amended): validate succeeds exactly when the node count equals the
edge count plus one; every other combination, including the empty path, is
an error. -/
theorem validate_iff (p : TSGPath) :
    p.validate = .ok () ↔ p.nodes.length = p.edges.length + 1 := by
  unfold TSGPath.validate
  by_cases h : p.nodes.length = p.edges.length + 1 <;> simp [h]

/-- C7 counterexample: on a one-node path without its stored graph
reference, id panics, so a path with at least one node does not always get
an identity string. -/
theorem path_id_cex : TSGPath.id pNoGraph = .panicked := by decide

/-- C7 (amended): id fails with the EmptyPath error exactly on zero-node
paths; a path with at least one node is assigned an identity string provided
its stored graph reference is present and all of its node indices resolve in
that section. -/
theorem path_id_spec (p : TSGPath) :
    (p.nodes = [] → TSGPath.id p = .err (chars "No nodes in path")) ∧
    (∀ g, p.nodes ≠ [] → p.graph = some g →
      (∀ i ∈ p.nodes, i < g.nodes.length) →
      ∃ s, TSGPath.id p = .ok s) := by
  constructor
  · intro h
    unfold TSGPath.id
    simp [h]
  · intro g hne hg hidx
    obtain ⟨nds, hnds⟩ := collect_lookup_some g p.nodes hidx
    refine ⟨to_hash_identifier (joinSep (chars "-") (nds.map (fun nd => nd.id))) 16, ?_⟩
    unfold TSGPath.id
    rw [isEmpty_false_of_ne_nil hne, hg]
    simp [hnds]

/-- C7 witness: the amended claim at a concrete one-node path. -/
theorem path_id_spec_witness :
    (pWithGraph.nodes ≠ [] ∧ pWithGraph.graph = some pSection ∧
      (∀ i ∈ pWithGraph.nodes, i < pSection.nodes.length)) ∧
    ∃ s, TSGPath.id pWithGraph = .ok s :=
  ⟨⟨by decide, rfl, by decide⟩,
    (path_id_spec pWithGraph).2 pSection (by decide) rfl (by decide)⟩

/-- C8: path identity is deterministic and fixed-width: any two paths whose
node indices resolve to the same node-id sequence receive the same identity,
a 16-character string obtained by hashing the dash-joined node ids. -/
theorem path_id_deterministic (p q : TSGPath) (gp gq : GraphSection)
    (np nq : List NodeData)
    (hp : p.graph = some gp) (hq : q.graph = some gq)
    (hnp : collectOption gp.node_by_idx p.nodes = some np)
    (hnq : collectOption gq.node_by_idx q.nodes = some nq)
    (hpne : p.nodes ≠ []) (hqne : q.nodes ≠ [])
    (hids : np.map (fun nd => nd.id) = nq.map (fun nd => nd.id)) :
    TSGPath.id p = TSGPath.id q ∧
    ∃ s, TSGPath.id p = .ok s ∧ s.length = 16 := by
  have hpid : TSGPath.id p =
      .ok (to_hash_identifier (joinSep (chars "-") (np.map (fun nd => nd.id))) 16) := by
    unfold TSGPath.id
    rw [isEmpty_false_of_ne_nil hpne, hp]
    simp [hnp]
  have hqid : TSGPath.id q =
      .ok (to_hash_identifier (joinSep (chars "-") (nq.map (fun nd => nd.id))) 16) := by
    unfold TSGPath.id
    rw [isEmpty_false_of_ne_nil hqne, hq]
    simp [hnq]
  refine ⟨?_, ?_⟩
  · rw [hpid, hqid, hids]
  · exact ⟨_, hpid, hexFixed_length _ 16⟩

/-- C8 witness: determinism and width at a concrete one-node path. -/
theorem path_id_deterministic_witness :
    TSGPath.id pWithGraph = TSGPath.id pWithGraph ∧
    ∃ s, TSGPath.id pWithGraph = .ok s ∧ s.length = 16 :=
  path_id_deterministic pWithGraph pWithGraph pSection pSection [pNode] [pNode]
    rfl rfl (by decide) (by decide) (by decide) (by decide) rfl

/-- C9 counterexample: two paths with identical node and edge index
sequences and identical attributes give different id() results depending
only on the graph reference stored inside the path value, so id() reads the
stored reference rather than taking the section as an explicit parameter. -/
theorem path_stores_graph_cex :
    pWithGraph.nodes = pNoGraph.nodes ∧ pWithGraph.edges = pNoGraph.edges ∧
    pWithGraph.attributes = pNoGraph.attributes ∧
    TSGPath.id pWithGraph ≠ TSGPath.id pNoGraph :=
  ⟨rfl, rfl, rfl, by decide⟩

/-- C9 (amended): a TSGPath stores an optional reference to its owning
section inside the value; identity computation reads that stored reference
and panics when it is absent instead of receiving the section as an explicit
parameter. -/
theorem path_reads_stored_graph (p : TSGPath) (h1 : p.nodes ≠ [])
    (h2 : p.graph = none) : TSGPath.id p = .panicked := by
  unfold TSGPath.id
  rw [isEmpty_false_of_ne_nil h1, h2]
  rfl

/-- C9 witness: the stored-reference panic at a concrete one-node path. -/
theorem path_reads_stored_graph_witness :
    (pNoGraph.nodes ≠ [] ∧ pNoGraph.graph = none) ∧
    TSGPath.id pNoGraph = .panicked :=
  ⟨⟨by decide, rfl⟩, path_reads_stored_graph pNoGraph (by decide) rfl⟩

end TSG
